import Mathlib

/-!
Shallow embedding of the Intcode virtual machine (`src/parameter.rs`,
`src/instruction.rs`, `src/process.rs`, `src/ipc.rs`, `src/breakpoint.rs`).

Conventions:
* Rust `isize` is modelled as `Int`; `usize` indices as `Nat`.
* A Rust `v as usize` cast (64-bit platform) is `usizeOfInt v = (v % 2^64).toNat`.
* Rust truncated division `/` and remainder `%` on `isize` are `Int.tdiv` / `Int.tmod`.
* A function that can hit a Rust `panic` returns `Option`; `none` models the panic.
* The `HashMap<usize, isize>` is modelled as an association list with
  insert-replaces semantics; its `len()` is the list length.
* The two async channel endpoints are modelled by the result the environment
  would deliver at the single suspension point of a step: `StepEnv`.
-/

set_option autoImplicit false

namespace Intcode

/-- Rust `v as usize` on a 64-bit platform: two's-complement wrap into `[0, 2^64)`. -/
def usizeOfInt (v : Int) : Nat :=
  (v % (2 ^ 64 : Int)).toNat

/-- `Parameter` from `src/parameter.rs`: Position / Immediate / Relative. -/
inductive Parameter where
  | Position (pos : Nat)
  | Immediate (value : Int)
  | Relative (offset : Int)
  deriving DecidableEq, Repr

/-- `Parameter::new` from `src/parameter.rs`: the mode digit is
`(opcode / 10^(position+1)) % 10` with truncated division; digit 0 is Position
(value cast `as usize`), 1 is Immediate, 2 is Relative, anything else panics
(modelled as `none`). -/
def Parameter.new (opcode : Int) (position : Nat) (value : Int) : Option Parameter :=
  let mode := (opcode.tdiv (10 ^ (position + 1))).tmod 10
  if mode = 0 then some (Parameter.Position (usizeOfInt value))
  else if mode = 1 then some (Parameter.Immediate value)
  else if mode = 2 then some (Parameter.Relative value)
  else none

/-- `Instruction` from `src/instruction.rs`: the ten opcodes with their operands. -/
inductive Instruction where
  | Add (left right dest : Parameter)
  | Multiply (left right dest : Parameter)
  | Input (dest : Parameter)
  | Output (value : Parameter)
  | JumpIfTrue (value dest : Parameter)
  | JumpIfFalse (value dest : Parameter)
  | LessThan (left right dest : Parameter)
  | Equals (left right dest : Parameter)
  | AdjustRelativeBaseOffset (value : Parameter)
  | Halt
  deriving DecidableEq, Repr

/-- `Instruction::parameter_count` from `src/instruction.rs`. -/
def Instruction.parameter_count : Instruction → Nat
  | .Add _ _ _ => 3
  | .Multiply _ _ _ => 3
  | .Input _ => 1
  | .Output _ => 1
  | .JumpIfTrue _ _ => 2
  | .JumpIfFalse _ _ => 2
  | .LessThan _ _ _ => 3
  | .Equals _ _ _ => 3
  | .AdjustRelativeBaseOffset _ => 1
  | .Halt => 0

/-- Model of `std::mem::discriminant` on `Instruction`: the variant tag,
ignoring operand contents. -/
def Instruction.tag : Instruction → Nat
  | .Add _ _ _ => 0
  | .Multiply _ _ _ => 1
  | .Input _ => 2
  | .Output _ => 3
  | .JumpIfTrue _ _ => 4
  | .JumpIfFalse _ _ => 5
  | .LessThan _ _ _ => 6
  | .Equals _ _ _ => 7
  | .AdjustRelativeBaseOffset _ => 8
  | .Halt => 9

/-- `impl From<&str> for Instruction` from `src/instruction.rs`: build an
instruction from its 3-letter mnemonic with placeholder `Position 0` operands;
an unknown mnemonic panics (modelled as `none`). -/
def Instruction.fromMnemonic (s : String) : Option Instruction :=
  if s = "ADD" then some (.Add (.Position 0) (.Position 0) (.Position 0))
  else if s = "MUL" then some (.Multiply (.Position 0) (.Position 0) (.Position 0))
  else if s = "INP" then some (.Input (.Position 0))
  else if s = "OUT" then some (.Output (.Position 0))
  else if s = "JIT" then some (.JumpIfTrue (.Position 0) (.Position 0))
  else if s = "JIF" then some (.JumpIfFalse (.Position 0) (.Position 0))
  else if s = "LST" then some (.LessThan (.Position 0) (.Position 0) (.Position 0))
  else if s = "EQL" then some (.Equals (.Position 0) (.Position 0) (.Position 0))
  else if s = "ARO" then some (.AdjustRelativeBaseOffset (.Position 0))
  else if s = "HLT" then some .Halt
  else none

/-- Lookup in the association list modelling `HashMap<usize, isize>`. -/
def alistGet : List (Nat × Int) → Nat → Option Int
  | [], _ => none
  | p :: rest, i => if p.1 = i then some p.2 else alistGet rest i

/-- Insert-or-replace in the association list modelling `HashMap<usize, isize>`. -/
def alistInsert : List (Nat × Int) → Nat → Int → List (Nat × Int)
  | [], i, v => [(i, v)]
  | p :: rest, i, v => if p.1 = i then (i, v) :: rest else p :: alistInsert rest i v

/-- `State` from `src/process.rs`. -/
structure State where
  memory : List Int
  additional_memory : List (Nat × Int)
  instruction_pointer : Nat
  relative_base : Int
  last_output : Option Int
  last_input : Option Int
  halted : Bool
  deriving DecidableEq, Repr

/-- `impl Index<usize> for State`: the dense prefix if in range, else the
sparse map, else 0. -/
def State.read (s : State) (i : Nat) : Int :=
  if i < s.memory.length then s.memory.getD i 0
  else (alistGet s.additional_memory i).getD 0

/-- `impl IndexMut<usize> for State` followed by an assignment: update the
dense prefix if in range, else insert into the sparse map. -/
def State.write (s : State) (i : Nat) (v : Int) : State :=
  if i < s.memory.length then { s with memory := s.memory.set i v }
  else { s with additional_memory := alistInsert s.additional_memory i v }

/-- `State::len` from `src/process.rs`: dense length plus sparse entry count. -/
def State.len (s : State) : Nat :=
  s.memory.length + s.additional_memory.length

/-- The decoding `match` inside `State::next_instruction`: operation is
`opcode % 100`; operands are decoded by `Parameter::new` from the words
following the instruction pointer. An invalid opcode or mode digit panics
(modelled as `none`). -/
def decodeInstruction (s : State) : Option Instruction :=
  let ip := s.instruction_pointer
  let opcode := s.read ip
  let op := opcode.tmod 100
  let p : Nat → Option Parameter := fun k => Parameter.new opcode k (s.read (ip + k))
  if op = 1 then
    (p 1).bind fun a => (p 2).bind fun b => (p 3).map fun c => Instruction.Add a b c
  else if op = 2 then
    (p 1).bind fun a => (p 2).bind fun b => (p 3).map fun c => Instruction.Multiply a b c
  else if op = 3 then (p 1).map fun a => Instruction.Input a
  else if op = 4 then (p 1).map fun a => Instruction.Output a
  else if op = 5 then
    (p 1).bind fun a => (p 2).map fun b => Instruction.JumpIfTrue a b
  else if op = 6 then
    (p 1).bind fun a => (p 2).map fun b => Instruction.JumpIfFalse a b
  else if op = 7 then
    (p 1).bind fun a => (p 2).bind fun b => (p 3).map fun c => Instruction.LessThan a b c
  else if op = 8 then
    (p 1).bind fun a => (p 2).bind fun b => (p 3).map fun c => Instruction.Equals a b c
  else if op = 9 then (p 1).map fun a => Instruction.AdjustRelativeBaseOffset a
  else if op = 99 then some Instruction.Halt
  else none

/-- `State::next_instruction` from `src/process.rs`. The outer `Option` models
a Rust panic during decoding; `some none` models returning `None` (the
instruction pointer is past `len()` or the process has halted); otherwise the
instruction is returned with its size `parameter_count + 1`. -/
def State.next_instruction (s : State) : Option (Option (Instruction × Nat)) :=
  if s.len ≤ s.instruction_pointer ∨ s.halted = true then some none
  else
    match decodeInstruction s with
    | none => none
    | some i => some (some (i, i.parameter_count + 1))

/-- The `eval! write` macro arm in `Process::evaluate_instruction`: resolve a
write destination. Position is the index itself; Relative adds the relative
base (cast `as usize`); Immediate panics (modelled as `none`). -/
def resolveWrite (s : State) : Parameter → Option Nat
  | .Position pos => some pos
  | .Relative offset => some (usizeOfInt (s.relative_base + offset))
  | .Immediate _ => none

/-- The `eval!` macro arm in `Process::evaluate_instruction`: resolve a read
operand to its value. -/
def resolveRead (s : State) : Parameter → Int
  | .Position pos => s.read pos
  | .Relative offset => s.read (usizeOfInt (s.relative_base + offset))
  | .Immediate value => value

/-- The channel interactions available to a single step: the value (if any)
that `channel_receiver.recv()` would deliver (`none` models a closed or empty
channel), and whether `channel_sender.send` would succeed. -/
structure StepEnv where
  recvResult : Option Int
  sendOk : Bool
  deriving DecidableEq, Repr

/-- `Process::evaluate_instruction` from `src/process.rs`. Returns `none` for
a Rust panic, otherwise `some (advance, newState)` mirroring `Ok(advance)`.
Jumps taken, a closed input channel and a failed output send yield
`advance = false`; every other completed instruction, including `Halt`, yields
`advance = true`. -/
def evaluate_instruction (env : StepEnv) (s : State) (i : Instruction) : Option (Bool × State) :=
  if s.halted then some (false, s)
  else
    match i with
    | .Add left right dest =>
      (resolveWrite s dest).map fun d =>
        (true, s.write d (resolveRead s left + resolveRead s right))
    | .Multiply left right dest =>
      (resolveWrite s dest).map fun d =>
        (true, s.write d (resolveRead s left * resolveRead s right))
    | .LessThan left right dest =>
      (resolveWrite s dest).map fun d =>
        (true, s.write d (if resolveRead s left < resolveRead s right then 1 else 0))
    | .Equals left right dest =>
      (resolveWrite s dest).map fun d =>
        (true, s.write d (if resolveRead s left = resolveRead s right then 1 else 0))
    | .Input dest =>
      (resolveWrite s dest).map fun d =>
        match env.recvResult with
        | some v =>
          let s₁ := s.write d v
          (true, { s₁ with last_input := some (s₁.read d) })
        | none => (false, s)
    | .Output value =>
      let v := resolveRead s value
      let s₁ := { s with last_output := some v }
      if env.sendOk then some (true, s₁) else some (false, s₁)
    | .JumpIfTrue value dest =>
      let v := resolveRead s value
      let d := resolveRead s dest
      if v ≠ 0 then some (false, { s with instruction_pointer := usizeOfInt d })
      else some (true, s)
    | .JumpIfFalse value dest =>
      let v := resolveRead s value
      let d := resolveRead s dest
      if v = 0 then some (false, { s with instruction_pointer := usizeOfInt d })
      else some (true, s)
    | .AdjustRelativeBaseOffset value =>
      some (true, { s with relative_base := s.relative_base + resolveRead s value })
    | .Halt => some (true, { s with halted := true })

/-- `Process::step` from `src/process.rs`: decode the next instruction; when
present, evaluate it, and add the instruction size to the instruction pointer
exactly when the evaluation returned `Ok(true)`. `none` models a panic. -/
def Process.step (env : StepEnv) (s : State) : Option State :=
  match s.next_instruction with
  | none => none
  | some none => some s
  | some (some (i, size)) =>
    match evaluate_instruction env s i with
    | none => none
    | some (true, s') => some { s' with instruction_pointer := s'.instruction_pointer + size }
    | some (false, s') => some s'

/-- `Breakpoint` from `src/breakpoint.rs`. -/
inductive Breakpoint where
  | MemoryLocation (location : Nat)
  | Instruction (i : Instruction)
  deriving DecidableEq, Repr

/-- `Breakpoint::evaluate` from `src/breakpoint.rs`: an instruction breakpoint
compares discriminants (variant tags); a memory-location breakpoint checks
membership of the location in `[IP, IP + size)` where `size` is
`parameter_count + 1` of the next instruction. -/
def Breakpoint.evaluate (b : Breakpoint) (state : State) (instruction : Intcode.Instruction) : Bool :=
  match b with
  | .Instruction i => i.tag == instruction.tag
  | .MemoryLocation location =>
    let size := instruction.parameter_count + 1
    let start := state.instruction_pointer
    decide (start ≤ location ∧ location < start + size)

/-- The sequential state of a `Channel` from `src/ipc.rs`: the shared
`VecDeque` buffer (front at the head of the list) and the number of pending
notifications in the `mpsc::channel(32)` notifier queue. -/
structure ChannelState where
  buffer : List Int
  notifications : Nat
  deriving DecidableEq, Repr

/-- `Channel::new`: empty buffer, no pending notifications. -/
def ChannelState.init : ChannelState :=
  { buffer := [], notifications := 0 }

/-- `ChannelSender::send` from `src/ipc.rs` at a quiescent point: push the
value onto the back of the buffer, then enqueue one notification. When the
notifier queue (capacity 32) is full the send cannot complete without a
concurrent receive, modelled as `none`. -/
def ChannelState.send (c : ChannelState) (value : Int) : Option ChannelState :=
  if c.notifications < 32 then
    some { buffer := c.buffer ++ [value], notifications := c.notifications + 1 }
  else none

/-- `ChannelReceiver::recv` from `src/ipc.rs` at a quiescent point. With a
pending notification it reads the buffer front (`unwrap` panics on an empty
buffer, modelled by the outer `none`) and pops it; with no pending
notification it returns no value (closed notifier in blocking mode, or empty
in polling mode) and leaves the state unchanged. -/
def ChannelState.recv (c : ChannelState) : Option (Option Int × ChannelState) :=
  if c.notifications = 0 then some (none, c)
  else
    match c.buffer with
    | [] => none
    | v :: rest => some (some v, { buffer := rest, notifications := c.notifications - 1 })

/-- One operation applied to a channel by either endpoint. -/
inductive ChanOp where
  | send (value : Int)
  | recv
  deriving DecidableEq, Repr

/-- Run a sequence of channel operations from a given channel state,
accumulating the values passed to successful sends and the values returned by
successful receives (in order). `none` models a panic or a send blocked with
no concurrent receiver. -/
def runTrace : List ChanOp → ChannelState → List Int → List Int →
    Option (ChannelState × List Int × List Int)
  | [], c, sent, recvd => some (c, sent, recvd)
  | .send v :: ops, c, sent, recvd =>
    match c.send v with
    | none => none
    | some c' => runTrace ops c' (sent ++ [v]) recvd
  | .recv :: ops, c, sent, recvd =>
    match c.recv with
    | none => none
    | some (none, c') => runTrace ops c' sent recvd
    | some (some v, c') => runTrace ops c' sent (recvd ++ [v])

/-! Helper lemmas. -/

@[simp]
theorem write_instruction_pointer (s : State) (i : Nat) (v : Int) :
    (s.write i v).instruction_pointer = s.instruction_pointer := by
  unfold State.write
  split <;> rfl

@[simp]
theorem write_halted (s : State) (i : Nat) (v : Int) :
    (s.write i v).halted = s.halted := by
  unfold State.write
  split <;> rfl

@[simp]
theorem write_relative_base (s : State) (i : Nat) (v : Int) :
    (s.write i v).relative_base = s.relative_base := by
  unfold State.write
  split <;> rfl

theorem getD_set_self : ∀ (l : List Int) (i : Nat) (v : Int), i < l.length →
    (l.set i v).getD i 0 = v
  | _ :: _, 0, _, _ => rfl
  | _ :: l, i + 1, v, h => getD_set_self l i v (by simpa using h)
  | [], _, _, h => absurd h (by simp)

theorem alistGet_insert_self (l : List (Nat × Int)) (i : Nat) (v : Int) :
    alistGet (alistInsert l i v) i = some v := by
  induction l with
  | nil => simp [alistInsert, alistGet]
  | cons p rest ih =>
    by_cases h : p.1 = i
    · simp [alistInsert, h, alistGet]
    · simp [alistInsert, h, alistGet, ih]

theorem next_instruction_inv {s : State} {i : Instruction} {n : Nat}
    (h : s.next_instruction = some (some (i, n))) :
    s.halted = false ∧ s.instruction_pointer < s.len ∧
      decodeInstruction s = some i ∧ n = i.parameter_count + 1 := by
  unfold State.next_instruction at h
  split at h
  · simp at h
  · rename_i hcond
    push_neg at hcond
    obtain ⟨h1, h2⟩ := hcond
    cases hdec : decodeInstruction s with
    | none => rw [hdec] at h; simp at h
    | some j =>
      rw [hdec] at h
      simp only [Option.some.injEq, Prod.mk.injEq] at h
      obtain ⟨hji, hn⟩ := h
      subst hji
      exact ⟨by simpa using h2, by omega, rfl, hn.symm⟩

theorem step_of_advance {env : StepEnv} {s : State} {i : Instruction} {n : Nat} {s' : State}
    (hni : s.next_instruction = some (some (i, n)))
    (he : evaluate_instruction env s i = some (true, s')) :
    Process.step env s = some { s' with instruction_pointer := s'.instruction_pointer + n } := by
  simp [Process.step, hni, he]

theorem step_of_stay {env : StepEnv} {s : State} {i : Instruction} {n : Nat} {s' : State}
    (hni : s.next_instruction = some (some (i, n)))
    (he : evaluate_instruction env s i = some (false, s')) :
    Process.step env s = some s' := by
  simp [Process.step, hni, he]

theorem advance_ip_eq {env : StepEnv} {s : State} {i : Instruction} {s' : State}
    (he : evaluate_instruction env s i = some (true, s')) :
    s'.instruction_pointer = s.instruction_pointer := by
  unfold evaluate_instruction at he
  by_cases hh : s.halted
  · simp [hh] at he
  · simp only [hh, Bool.false_eq_true, if_false] at he
    cases i with
    | Add left right dest =>
      simp only [Option.map_eq_some'] at he
      obtain ⟨d, _, hd⟩ := he
      simp only [Prod.mk.injEq, true_and] at hd
      subst hd
      simp
    | Multiply left right dest =>
      simp only [Option.map_eq_some'] at he
      obtain ⟨d, _, hd⟩ := he
      simp only [Prod.mk.injEq, true_and] at hd
      subst hd
      simp
    | LessThan left right dest =>
      simp only [Option.map_eq_some'] at he
      obtain ⟨d, _, hd⟩ := he
      simp only [Prod.mk.injEq, true_and] at hd
      subst hd
      simp
    | Equals left right dest =>
      simp only [Option.map_eq_some'] at he
      obtain ⟨d, _, hd⟩ := he
      simp only [Prod.mk.injEq, true_and] at hd
      subst hd
      simp
    | Input dest =>
      simp only [Option.map_eq_some'] at he
      obtain ⟨d, _, hd⟩ := he
      cases hr : env.recvResult with
      | some v =>
        rw [hr] at hd
        simp only [Prod.mk.injEq, true_and] at hd
        subst hd
        simp
      | none => rw [hr] at hd; simp at hd
    | Output value =>
      by_cases hs : env.sendOk
      · simp only [hs, if_true, Option.some.injEq, Prod.mk.injEq, true_and] at he
        subst he
        rfl
      · simp [hs] at he
    | JumpIfTrue value dest =>
      by_cases hv : resolveRead s value = 0
      · simp only [hv, ne_eq, not_true_eq_false, if_false, Option.some.injEq,
          Prod.mk.injEq, true_and] at he
        subst he
        rfl
      · simp [hv] at he
    | JumpIfFalse value dest =>
      by_cases hv : resolveRead s value = 0
      · simp [hv] at he
      · simp only [hv, if_false, Option.some.injEq, Prod.mk.injEq, true_and] at he
        subst he
        rfl
    | AdjustRelativeBaseOffset value =>
      simp only [Option.some.injEq, Prod.mk.injEq, true_and] at he
      subst he
      rfl
    | Halt =>
      simp only [Option.some.injEq, Prod.mk.injEq, true_and] at he
      subst he
      rfl

/-! Concrete fixtures used by counterexamples and witnesses. -/

/-- A default step environment: input channel closed, output send succeeds. -/
def envDefault : StepEnv := ⟨none, true⟩

/-- The one-instruction program `99` about to execute `Halt`. -/
def haltProg : State := ⟨[99], [], 0, 0, none, none, false⟩

/-- A non-halted state with empty memory. -/
def emptyProg : State := ⟨[], [], 0, 0, none, none, false⟩

/-- The program `1,0,0,0,99` about to execute `Add`. -/
def addProg : State := ⟨[1, 0, 0, 0, 99], [], 0, 0, none, none, false⟩

/-- The program `3,0` about to execute `Input`. -/
def inputProg : State := ⟨[3, 0], [], 0, 0, none, none, false⟩

/-- The program `4,0` about to execute `Output`. -/
def outputProg : State := ⟨[4, 0], [], 0, 0, none, none, false⟩

/-- A state that has already halted. -/
def doneProg : State := ⟨[99], [], 1, 0, none, none, true⟩

/-! Claim theorems. -/

/-- C1 counterexample: in the state `⟨[99], ip = 0⟩` the next instruction is
`Halt`, yet one step moves the instruction pointer from 0 to 1 — the `Halt`
arm of `evaluate_instruction` signals advance (`Ok(true)`), so the claim that
the instruction pointer is left unchanged is false on the code. -/
theorem halt_step_claim_counterexample :
    haltProg.next_instruction = some (some (Instruction.Halt, 1)) ∧
    haltProg.instruction_pointer = 0 ∧
    Process.step envDefault haltProg = some ⟨[99], [], 1, 0, none, none, true⟩ := by
  decide

/-- C1 (amended): for every process state whose next instruction is `Halt`,
executing one step sets `halted` to true and advances the instruction pointer
by 1 (the `Halt` evaluation signals advance, so the step adds the
instruction size `1 + arity = 1`). -/
theorem halt_step_sets_halted_and_advances (env : StepEnv) (s : State) (n : Nat)
    (h : s.next_instruction = some (some (Instruction.Halt, n))) :
    Process.step env s =
      some { s with halted := true,
                    instruction_pointer := s.instruction_pointer + 1 } := by
  obtain ⟨hh, -, -, hn⟩ := next_instruction_inv h
  have he : evaluate_instruction env s Instruction.Halt =
      some (true, { s with halted := true }) := by
    unfold evaluate_instruction
    simp [hh]
  have hstep := step_of_advance h he
  rw [hstep]
  simp [hn, Instruction.parameter_count]

/-- Witness for the amended C1 theorem at the concrete program `99`. -/
theorem halt_step_sets_halted_and_advances_witness :
    Process.step envDefault haltProg =
      some { haltProg with halted := true,
                           instruction_pointer := haltProg.instruction_pointer + 1 } :=
  halt_step_sets_halted_and_advances envDefault haltProg 1 (by decide)

/-- C2 counterexample: the state with empty memory is not halted, yet
`next_instruction` returns `None` (because the instruction pointer is not
below `len()`), so "absent exactly when the process is halted" is false on
the code. -/
theorem next_instruction_claim_counterexample :
    emptyProg.halted = false ∧ emptyProg.next_instruction = some none := by
  decide

/-- C2 (amended): `next_instruction()` returns absent exactly when the process
is halted or the instruction pointer has reached `len()` (the dense length
plus the sparse entry count); otherwise it returns the instruction decoded at
the instruction pointer together with the advance amount `1 + arity`. -/
theorem next_instruction_none_iff (s : State) :
    (s.next_instruction = some none ↔
      (s.halted = true ∨ s.len ≤ s.instruction_pointer)) ∧
    (∀ i n, s.next_instruction = some (some (i, n)) →
      decodeInstruction s = some i ∧ n = 1 + i.parameter_count) := by
  constructor
  · unfold State.next_instruction
    split
    · rename_i hcond
      simp only [true_iff]
      tauto
    · rename_i hcond
      push_neg at hcond
      obtain ⟨h1, h2⟩ := hcond
      have h2' : s.halted = false := by simpa using h2
      cases hdec : decodeInstruction s <;> simp [h2'] <;> omega
  · intro i n h
    obtain ⟨-, -, hdec, hn⟩ := next_instruction_inv h
    exact ⟨hdec, by omega⟩

/-- Witness for the amended C2 theorem at the concrete program `1,0,0,0,99`. -/
theorem next_instruction_none_iff_witness :
    decodeInstruction addProg =
      some (Instruction.Add (Parameter.Position 0) (Parameter.Position 0)
        (Parameter.Position 0)) ∧
    (4 : Nat) = 1 + (Instruction.Add (Parameter.Position 0) (Parameter.Position 0)
      (Parameter.Position 0)).parameter_count :=
  (next_instruction_none_iff addProg).2
    (Instruction.Add (Parameter.Position 0) (Parameter.Position 0) (Parameter.Position 0))
    4 (by decide)

/-- C9: `step` on a halted process returns the state completely unchanged
(memory, sparse memory, instruction pointer, relative base, last input, last
output, halted), hence is idempotent on halted processes. -/
theorem step_halted_noop (env : StepEnv) (s : State) (h : s.halted = true) :
    Process.step env s = some s := by
  unfold Process.step State.next_instruction
  simp [h]

/-- Witness for C9 at a concrete halted state. -/
theorem step_halted_noop_witness :
    Process.step envDefault doneProg = some doneProg :=
  step_halted_noop envDefault doneProg (by decide)

/-- C3: after a step whose evaluation signals advance, the new instruction
pointer equals the old instruction pointer plus 1 plus the arity of the
instruction executed. -/
theorem step_advances_ip_by_size (env : StepEnv) (s : State) (i : Instruction)
    (n : Nat) (s' : State)
    (hni : s.next_instruction = some (some (i, n)))
    (he : evaluate_instruction env s i = some (true, s')) :
    ∃ s₂, Process.step env s = some s₂ ∧
      s₂.instruction_pointer = s.instruction_pointer + 1 + i.parameter_count := by
  refine ⟨_, step_of_advance hni he, ?_⟩
  have hip := advance_ip_eq he
  have hn := (next_instruction_inv hni).2.2.2
  simp only [hip, hn]
  omega

/-- Witness for C3 at the program `1,0,0,0,99`: the advancing `Add` step moves
the instruction pointer from 0 to 4. -/
theorem step_advances_ip_by_size_witness :
    ∃ s₂, Process.step envDefault addProg = some s₂ ∧
      s₂.instruction_pointer = addProg.instruction_pointer + 1 +
        (Instruction.Add (Parameter.Position 0) (Parameter.Position 0)
          (Parameter.Position 0)).parameter_count :=
  step_advances_ip_by_size envDefault addProg
    (Instruction.Add (Parameter.Position 0) (Parameter.Position 0) (Parameter.Position 0))
    4 ⟨[2, 0, 0, 0, 99], [], 0, 0, none, none, false⟩ (by decide) (by decide)

/-- The parameter-mode formula exactly as the specification words it:
`mode(O, p) = (O / 10^(p+1)) mod 10`, with the truncated division and
remainder of the source language. -/
def specMode (O : Int) (p : Nat) : Int :=
  (O.tdiv (10 ^ (p + 1))).tmod 10

/-- C4: `Parameter::new` decodes the mode digit `(O / 10^(p+1)) mod 10`:
digit 0 yields a Position parameter (index `value as usize`), 1 an Immediate
parameter, 2 a Relative parameter, and any other digit a decoding failure. -/
theorem parameter_mode_decoding (O : Int) (p : Nat) (v : Int) :
    (Parameter.new O p v = some (Parameter.Position (usizeOfInt v)) ↔ specMode O p = 0) ∧
    (Parameter.new O p v = some (Parameter.Immediate v) ↔ specMode O p = 1) ∧
    (Parameter.new O p v = some (Parameter.Relative v) ↔ specMode O p = 2) ∧
    (Parameter.new O p v = none ↔
      (specMode O p ≠ 0 ∧ specMode O p ≠ 1 ∧ specMode O p ≠ 2)) := by
  unfold Parameter.new specMode
  by_cases h0 : (O.tdiv (10 ^ (p + 1))).tmod 10 = 0
  · simp [h0]
  · by_cases h1 : (O.tdiv (10 ^ (p + 1))).tmod 10 = 1
    · simp [h0, h1]
    · by_cases h2 : (O.tdiv (10 ^ (p + 1))).tmod 10 = 2
      · simp [h0, h1, h2]
      · simp [h0, h1, h2]

/-- C5: reading a memory index immediately after writing it returns the value
just written, both in the dense prefix and in the sparse map. -/
theorem read_after_write (s : State) (i : Nat) (v : Int) :
    (s.write i v).read i = v := by
  unfold State.write State.read
  by_cases h : i < s.memory.length
  · simp only [h, if_true, List.length_set]
    exact getD_set_self s.memory i v h
  · simp only [h, if_false]
    rw [alistGet_insert_self]
    rfl

/-- C6: when the next instruction is `Input` with a resolvable destination and
the receive reports the channel closed, the step leaves the entire state
unchanged — in particular the instruction pointer is not advanced and
`halted` is not set, so a later step retries the same `Input`. -/
theorem input_closed_step_retries (env : StepEnv) (s : State) (dest : Parameter)
    (n : Nat) (a : Nat)
    (hni : s.next_instruction = some (some (Instruction.Input dest, n)))
    (hw : resolveWrite s dest = some a)
    (hr : env.recvResult = none) :
    Process.step env s = some s := by
  have hh := (next_instruction_inv hni).1
  have he : evaluate_instruction env s (Instruction.Input dest) = some (false, s) := by
    unfold evaluate_instruction
    simp [hh, hw, hr]
  exact step_of_stay hni he

/-- Witness for C6 at the program `3,0` with a closed input channel. -/
theorem input_closed_step_retries_witness :
    Process.step envDefault inputProg = some inputProg :=
  input_closed_step_retries envDefault inputProg (Parameter.Position 0) 2 0
    (by decide) (by decide) rfl

/-- C10: when the next instruction is `Output` and the send fails, the step
still records `last_output` as the value computed from the operand, and
leaves every other component of the state (memory, sparse memory, instruction
pointer, relative base, last input, halted) unchanged. -/
theorem output_send_failure_frame (env : StepEnv) (s : State) (value : Parameter)
    (n : Nat)
    (hni : s.next_instruction = some (some (Instruction.Output value, n)))
    (hs : env.sendOk = false) :
    Process.step env s = some { s with last_output := some (resolveRead s value) } := by
  have hh := (next_instruction_inv hni).1
  have he : evaluate_instruction env s (Instruction.Output value) =
      some (false, { s with last_output := some (resolveRead s value) }) := by
    unfold evaluate_instruction
    simp [hh, hs]
  exact step_of_stay hni he

/-- Witness for C10 at the program `4,0` with a failing output channel. -/
theorem output_send_failure_frame_witness :
    Process.step ⟨none, false⟩ outputProg =
      some { outputProg with
             last_output := some (resolveRead outputProg (Parameter.Position 0)) } :=
  output_send_failure_frame ⟨none, false⟩ outputProg (Parameter.Position 0) 2
    (by decide) rfl

/-- The channel invariant driving C7: at every quiescent point the values
sent so far are exactly the values received so far followed by the buffer
contents, and the pending notification count equals the buffer length. -/
theorem runTrace_invariant (ops : List ChanOp) :
    ∀ (c : ChannelState) (sent recvd : List Int),
      sent = recvd ++ c.buffer → c.notifications = c.buffer.length →
      ∀ (c' : ChannelState) (sent' recvd' : List Int),
        runTrace ops c sent recvd = some (c', sent', recvd') →
        sent' = recvd' ++ c'.buffer := by
  induction ops with
  | nil =>
    intro c sent recvd hinv hn c' sent' recvd' h
    simp only [runTrace, Option.some.injEq, Prod.mk.injEq] at h
    obtain ⟨rfl, rfl, rfl⟩ := h
    exact hinv
  | cons op ops ih =>
    intro c sent recvd hinv hn c' sent' recvd' h
    cases op with
    | send v =>
      unfold runTrace ChannelState.send at h
      by_cases hcap : c.notifications < 32
      · rw [if_pos hcap] at h
        refine ih _ _ _ ?_ ?_ _ _ _ h
        · simp [hinv]
        · simp [hn]
      · rw [if_neg hcap] at h
        simp at h
    | recv =>
      unfold runTrace ChannelState.recv at h
      by_cases hz : c.notifications = 0
      · rw [if_pos hz] at h
        exact ih _ _ _ hinv hn _ _ _ h
      · rw [if_neg hz] at h
        cases hb : c.buffer with
        | nil => rw [hb] at h; simp at h
        | cons x rest =>
          rw [hb] at h
          refine ih _ _ _ ?_ ?_ _ _ _ h
          · simp only [hinv, hb]
            simp
          · simp only [hb] at hn
            simp [hn]

/-- C7: over any sequence of channel operations starting from a fresh channel,
the values returned by successful receives form a prefix of the values passed
to successful sends. -/
theorem channel_recv_prefix_of_send (ops : List ChanOp) (c : ChannelState)
    (sent recvd : List Int)
    (h : runTrace ops ChannelState.init [] [] = some (c, sent, recvd)) :
    ∃ t, recvd ++ t = sent :=
  ⟨c.buffer, (runTrace_invariant ops ChannelState.init [] [] rfl rfl c sent recvd h).symm⟩

/-- Witness for C7: the trace send 1, send 2, receive, yields receives `[1]`,
a prefix of sends `[1, 2]`. -/
theorem channel_recv_prefix_of_send_witness :
    ∃ t, [(1 : Int)] ++ t = [(1 : Int), 2] :=
  channel_recv_prefix_of_send [ChanOp.send 1, ChanOp.send 2, ChanOp.recv]
    ⟨[2], 1⟩ [1, 2] [1] (by decide)

/-- C8: an instruction breakpoint matches exactly when the next instruction
has the same variant tag (discriminant), operands ignored; in particular a
breakpoint built from the mnemonic `ADD` (placeholder operands) matches an
`Add` instruction with different operands, so matching is variant identity
and not structural equality. -/
theorem breakpoint_variant_identity :
    (∀ (st : State) (v i : Instruction),
      (Breakpoint.Instruction v).evaluate st i = true ↔ v.tag = i.tag) ∧
    (∃ v i : Instruction,
      Instruction.fromMnemonic ("ADD") = some v ∧ v.tag = i.tag ∧ v ≠ i ∧
      ∀ st : State, (Breakpoint.Instruction v).evaluate st i = true) := by
  constructor
  · intro st v i
    simp [Breakpoint.evaluate]
  · exact ⟨Instruction.Add (Parameter.Position 0) (Parameter.Position 0)
        (Parameter.Position 0),
      Instruction.Add (Parameter.Immediate 5) (Parameter.Position 0)
        (Parameter.Position 0),
      by decide, by decide, by decide, fun _ => rfl⟩

end Intcode
